import Mathlib

/-!
Verification of the lite-engine component lifecycle scheduler
(`src/core/context.ts` and `src/core/component.ts`).

The model is a shallow embedding of the `Context` class that manages the
component registry: `activeComponents` (an insertion-ordered map),
`pendingStart` and `pendingRemoval` (insertion-ordered sets), the in-flight
asynchronous start batches created by `processPendingOperations`, and the
lifecycle-callback table.  Components are identified by natural numbers; a
component object's mutable fields (`_ctx` set, `_enabled`, `_components`)
live in a heap, while its hook behaviour (which of start/update/dispose it
implements and whether they throw) is a static `CompSpec`.

JavaScript semantics captured here: `Map.set` updates in place or appends,
`Map.delete` removes the entry, `Set.add` appends only when absent and
elements added during iteration are still visited, and an `async` function
runs synchronously up to its first taken `await` — so `processPendingOperations`
runs its removal phase inside the frame only when no start returned a
promise, and otherwise defers it until the whole batch settles (modelled by
the `settle` action).
-/

/-- Association-list lookup, mirroring JS `Map.get`. -/
def lookupA {α : Type} : List (Nat × α) → Nat → Option α
  | [], _ => none
  | p :: rest, k => if p.1 = k then some p.2 else lookupA rest k

/-- Key membership, mirroring JS `Map.has`. -/
def hasA {α : Type} (l : List (Nat × α)) (k : Nat) : Bool :=
  (lookupA l k).isSome

/-- Mirrors JS `Map.set`: update in place when present, append otherwise. -/
def setA {α : Type} : List (Nat × α) → Nat → α → List (Nat × α)
  | [], k, v => [(k, v)]
  | p :: rest, k, v => if p.1 = k then (k, v) :: rest else p :: setA rest k v

/-- Mirrors JS `Map.delete` (keys are unique in a JS map). -/
def eraseA {α : Type} (l : List (Nat × α)) (k : Nat) : List (Nat × α) :=
  l.filter (fun p => p.1 != k)

/-- Mirrors JS `Set.add`: append only when the element is absent. -/
def insertS (l : List Nat) (k : Nat) : List Nat :=
  if k ∈ l then l else l ++ [k]

/-- Observable lifecycle events: hook invocations and the `console.error`
reports emitted by the catch handlers in `context.ts`. -/
inductive Ev
  | startCall (id : Nat)
  | startErr (id : Nat)
  | asyncErr (id : Nat)
  | updateCall (id : Nat)
  | updateErr (id : Nat)
  | disposeCall (id : Nat)
  | disposeErr (id : Nat)
deriving DecidableEq

/-- Number of occurrences of an event in a trace. -/
def countEv : List Ev → Ev → Nat
  | [], _ => 0
  | e :: rest, t => (if e = t then 1 else 0) + countEv rest t

/-- Events emitted by the add phase: `start` invocations and the
`Error initializing component` report. -/
def isStartEv : Ev → Bool
  | .startCall _ => true
  | .startErr _ => true
  | _ => false

/-- Events emitted by the removal phase: `dispose` invocations and the
`Error disposing component` report. -/
def isRemovalEv : Ev → Bool
  | .disposeCall _ => true
  | .disposeErr _ => true
  | _ => false

/-- Events emitted by the update phase: `update` invocations and the
`Error updating component` report. -/
def isUpdateEv : Ev → Bool
  | .updateCall _ => true
  | .updateErr _ => true
  | _ => false

/-- The component the event belongs to. -/
def evId : Ev → Nat
  | .startCall i => i
  | .startErr i => i
  | .asyncErr i => i
  | .updateCall i => i
  | .updateErr i => i
  | .disposeCall i => i
  | .disposeErr i => i

/-- Behaviour of a component's optional `start` hook. -/
inductive StartBeh
  | noHook
  | syncOk
  | syncThrow
  | async
deriving DecidableEq

/-- Static behaviour of a component's lifecycle hooks. -/
structure CompSpec where
  startBeh : StartBeh
  hasUpdate : Bool
  updateThrows : Bool
  hasDispose : Bool
  disposeThrows : Bool
deriving DecidableEq

/-- Mutable fields of a `Component` object: whether `_ctx` has been
assigned, the `_enabled` flag, and the `_components` child set. -/
structure CompObj where
  ctxSet : Bool
  enabled : Bool
  children : List Nat
deriving DecidableEq

/-- A freshly constructed component: no context, enabled, no children. -/
def defaultObj : CompObj :=
  { ctxSet := false, enabled := true, children := [] }

/-- The `ComponentState` record kept in `activeComponents`. -/
structure CompState where
  isInitialized : Bool
deriving DecidableEq

/-- The scheduler state: component heap, `activeComponents`, `pendingStart`,
`pendingRemoval`, in-flight async start batches (one per suspended
`processPendingOperations` invocation, holding the unsettled ids), the
lifecycle callback table, and the observable event trace. -/
structure World where
  comps : List (Nat × CompObj)
  active : List (Nat × CompState)
  pendingStart : List Nat
  pendingRemoval : List Nat
  batches : List (List Nat)
  callbacks : List Nat
  events : List Ev
deriving DecidableEq

/-- The empty scheduler state. -/
def emptyWorld : World :=
  { comps := [], active := [], pendingStart := [], pendingRemoval := [],
    batches := [], callbacks := [], events := [] }

/-- Read a component object from the heap (fresh components are default). -/
def getObj (w : World) (c : Nat) : CompObj :=
  (lookupA w.comps c).getD defaultObj

/-- Write a component object back to the heap. -/
def setObj (w : World) (c : Nat) (o : CompObj) : World :=
  { w with comps := setA w.comps c o }

/-- Invoking `component.start()`: logs the call and either throws
synchronously (carrying the state at the throw), returns `undefined`
(`false`) or returns a promise (`true`).  Only called when the hook is
present. -/
def callStartE (spec : Nat → CompSpec) (c : Nat) (w : World) :
    Except World (World × Bool) :=
  match (spec c).startBeh with
  | .noHook => .ok (w, false)
  | .syncOk => .ok ({ w with events := w.events ++ [.startCall c] }, false)
  | .syncThrow => .error { w with events := w.events ++ [.startCall c] }
  | .async => .ok ({ w with events := w.events ++ [.startCall c] }, true)

/-- Invoking `component.update(dt)`: logs the call, throws when the
component's update hook throws. -/
def callUpdateE (spec : Nat → CompSpec) (c : Nat) (w : World) :
    Except World World :=
  if (spec c).updateThrows then
    .error { w with events := w.events ++ [.updateCall c] }
  else
    .ok { w with events := w.events ++ [.updateCall c] }

/-- Invoking `component.dispose()`: logs the call, throws when the
component's dispose hook throws. -/
def callDisposeE (spec : Nat → CompSpec) (c : Nat) (w : World) :
    Except World World :=
  if (spec c).disposeThrows then
    .error { w with events := w.events ++ [.disposeCall c] }
  else
    .ok { w with events := w.events ++ [.disposeCall c] }

/-- One iteration of the `pendingStart` loop in
`Context.processPendingOperations`.  The accumulator carries the world and
the ids whose `start` returned a promise (the `startPromises` batch).  A
synchronous throw is caught: the error is reported, the component is added
to `pendingRemoval` and — because of the `continue` — it is NOT inserted
into `activeComponents`. -/
def startOne (spec : Nat → CompSpec) (acc : World × List Nat) (c : Nat) :
    World × List Nat :=
  match (spec c).startBeh with
  | .noHook =>
      ({ acc.1 with active := setA acc.1.active c ⟨true⟩ }, acc.2)
  | _ =>
      match callStartE spec c acc.1 with
      | .error w1 =>
          ({ w1 with events := w1.events ++ [.startErr c],
                     pendingRemoval := insertS w1.pendingRemoval c }, acc.2)
      | .ok (w1, isProm) =>
          if isProm then
            ({ w1 with active := setA w1.active c ⟨false⟩ }, acc.2 ++ [c])
          else
            ({ w1 with active := setA w1.active c ⟨true⟩ }, acc.2)

namespace Context

/-- `Context.addComponent`: duplicate guard, then the `Component.ctx` setter
(which throws when `_ctx` was ever assigned), then insertion into
`pendingStart`.  The `Option String` is the synchronously thrown error. -/
def addComponent (w : World) (c : Nat) : World × Option String :=
  if hasA w.active c || c ∈ w.pendingStart then
    (w, some "Component already added to context")
  else if (getObj w c).ctxSet then
    (w, some "Context has already been set")
  else
    ({ setObj w c { getObj w c with ctxSet := true } with
       pendingStart := insertS w.pendingStart c }, none)

/-- `Context.removeComponent`: a no-op unless the component is in
`activeComponents`; otherwise adds it to `pendingRemoval`. -/
def removeComponent (w : World) (c : Nat) : World :=
  if hasA w.active c then
    { w with pendingRemoval := insertS w.pendingRemoval c }
  else
    w

/-- The guarded `dispose` call at the top of
`Context.removeComponentInternal`: invoked whenever the hook exists, the
error (if any) caught and reported. -/
def disposeStep (spec : Nat → CompSpec) (c : Nat) (w : World) : World :=
  if (spec c).hasDispose then
    match callDisposeE spec c w with
    | .ok w1 => w1
    | .error w1 => { w1 with events := w1.events ++ [.disposeErr c] }
  else
    w

/-- `Context.removeComponentInternal`: dispose (guarded), delete from
`activeComponents`, then `removeComponent` on each child from
`getComponents()`. -/
def removeComponentInternal (spec : Nat → CompSpec) (c : Nat) (w : World) :
    World :=
  let w1 := disposeStep spec c w
  let w2 := { w1 with active := eraseA w1.active c }
  ((getObj w2 c).children).foldl removeComponent w2

/-- The `for (const component of this.pendingRemoval)` loop.  JS `Set`
iteration visits elements appended during iteration, so the loop walks the
live `pendingRemoval` list by index; the cascading `removeComponent` calls
inside `removeComponentInternal` append to it.  The fuel is an upper bound
on the number of iterations (each appended id is a distinct member of
`activeComponents`). -/
def removalLoop (spec : Nat → CompSpec) : Nat → World → Nat → World
  | 0, w, _ => w
  | fuel + 1, w, i =>
      match w.pendingRemoval.drop i with
      | [] => w
      | c :: _ => removalLoop spec fuel (removeComponentInternal spec c w) (i + 1)

/-- The removal phase of `processPendingOperations`: drain the live
`pendingRemoval` set, then clear it. -/
def processRemovals (spec : Nat → CompSpec) (w : World) : World :=
  let w1 := removalLoop spec (w.pendingRemoval.length + w.active.length + 1) w 0
  { w1 with pendingRemoval := [] }

/-- `Context.processPendingOperations` up to its suspension behaviour: run
the add phase, clear `pendingStart`, and then either run the removal phase
synchronously (no promise was returned by any start) or record the batch of
in-flight starts and defer the removal phase to `settle`. -/
def processPendingOperations (spec : Nat → CompSpec) (w : World) : World :=
  let r := w.pendingStart.foldl (startOne spec) (w, [])
  let w1 := { r.1 with pendingStart := [] }
  if r.2.isEmpty then
    processRemovals spec w1
  else
    { w1 with batches := w1.batches ++ [r.2] }

/-- One entry of the `Context.updateComponents` loop: update is invoked when
the component is enabled, initialized and has the hook; a throw is caught,
reported, and disables the component. -/
def updateOne (spec : Nat → CompSpec) (w : World) (c : Nat) (st : CompState) :
    World :=
  if (getObj w c).enabled && st.isInitialized && (spec c).hasUpdate then
    match callUpdateE spec c w with
    | .ok w1 => w1
    | .error w1 =>
        { setObj w1 c { getObj w1 c with enabled := false } with
          events := w1.events ++ [.updateErr c] }
  else
    w

/-- `Context.updateComponents`: iterate the entries of `activeComponents`
(no entries are added or removed during the loop; only enabled flags
change). -/
def updateComponents (spec : Nat → CompSpec) (w : World) : World :=
  w.active.foldl (fun acc p => updateOne spec acc p.1 p.2) w

/-- `Context.update`: one frame.  It calls `processPendingOperations`
(without awaiting it — the synchronous prefix runs now) and then
`updateComponents`.  The clock, pre-render and render steps touch no
scheduler state. -/
def update (spec : Nat → CompSpec) (w : World) : World :=
  updateComponents spec (processPendingOperations spec w)

/-- `Context.clear`: request removal of every component in
`activeComponents`, run `processPendingOperations` immediately, then clear
the callback table. -/
def clear (spec : Nat → CompSpec) (w : World) : World :=
  let w1 := w.active.foldl (fun acc p => removeComponent acc p.1) w
  let w2 := processPendingOperations spec w1
  { w2 with callbacks := [] }

end Context

/-- Set `isInitialized := true` on the captured `ComponentState` (visible
only while the entry is still in `activeComponents`). -/
def setInit (l : List (Nat × CompState)) (c : Nat) : List (Nat × CompState) :=
  l.map (fun p => if p.1 = c then (p.1, ⟨true⟩) else p)

/-- Settlement of one in-flight asynchronous start.  The `.then` handler
marks the state initialized on success; the `.catch` handler reports
`AsyncStartError` and adds the component to `pendingRemoval` on failure.
When the settled promise was the last of its batch, the suspended
`processPendingOperations` invocation resumes and runs its removal phase. -/
def settle (spec : Nat → CompSpec) (w : World) (c : Nat) (ok : Bool) : World :=
  match w.batches.findIdx? (fun b => b.contains c) with
  | none => w
  | some i =>
      let b := ((w.batches[i]?).getD []).erase c
      let w1 :=
        if ok then { w with active := setInit w.active c }
        else { w with events := w.events ++ [.asyncErr c],
                      pendingRemoval := insertS w.pendingRemoval c }
      if b.isEmpty then
        Context.processRemovals spec { w1 with batches := w1.batches.eraseIdx i }
      else
        { w1 with batches := w1.batches.set i b }

/-- `Component.addComponent(child)`: delegates to `this.ctx.addComponent` —
the `ctx` getter throws when the context was never assigned.  Note that the
source does NOT insert the child into the parent's `_components` set. -/
def Component.addComponent (w : World) (parent child : Nat) :
    World × Option String :=
  if (getObj w parent).ctxSet then Context.addComponent w child
  else (w, some "Context has not been set.")

/-!
Exception-explicit translation.  Here a hook call that throws produces
`Except.error` carrying the state at the throw point, and a `try`/`catch`
from the source appears as a `match` that converts the error back into
`Except.ok`.  An uncaught hook error would propagate through the monadic
binds to the caller of `Context.update`; the claim about error containment
is that this never happens.
-/

/-- Body of the add-phase loop with explicit exception flow (the
`try { ... } catch { report; pendingRemoval.add; continue }` of the
source). -/
def startBodyE (spec : Nat → CompSpec) (acc : World × List Nat) (c : Nat) :
    Except World (World × List Nat) :=
  match (spec c).startBeh with
  | .noHook => .ok ({ acc.1 with active := setA acc.1.active c ⟨true⟩ }, acc.2)
  | _ =>
      match callStartE spec c acc.1 with
      | .error w1 =>
          .ok ({ w1 with events := w1.events ++ [.startErr c],
                         pendingRemoval := insertS w1.pendingRemoval c }, acc.2)
      | .ok (w1, isProm) =>
          .ok (if isProm then
                 ({ w1 with active := setA w1.active c ⟨false⟩ }, acc.2 ++ [c])
               else
                 ({ w1 with active := setA w1.active c ⟨true⟩ }, acc.2))

/-- The add-phase loop with explicit exception flow. -/
def startLoopE (spec : Nat → CompSpec) :
    List Nat → World × List Nat → Except World (World × List Nat)
  | [], acc => .ok acc
  | c :: rest, acc => do
      let acc1 ← startBodyE spec acc c
      startLoopE spec rest acc1

/-- The guarded dispose call with explicit exception flow. -/
def disposeStepE (spec : Nat → CompSpec) (c : Nat) (w : World) :
    Except World World :=
  if (spec c).hasDispose then
    match callDisposeE spec c w with
    | .ok w1 => .ok w1
    | .error w1 => .ok { w1 with events := w1.events ++ [.disposeErr c] }
  else
    .ok w

/-- `removeComponentInternal` with explicit exception flow. -/
def removeComponentInternalE (spec : Nat → CompSpec) (c : Nat) (w : World) :
    Except World World := do
  let w1 ← disposeStepE spec c w
  let w2 := { w1 with active := eraseA w1.active c }
  .ok (((getObj w2 c).children).foldl Context.removeComponent w2)

/-- The removal loop with explicit exception flow. -/
def removalLoopE (spec : Nat → CompSpec) : Nat → World → Nat → Except World World
  | 0, w, _ => .ok w
  | fuel + 1, w, i =>
      match w.pendingRemoval.drop i with
      | [] => .ok w
      | c :: _ => do
          let w1 ← removeComponentInternalE spec c w
          removalLoopE spec fuel w1 (i + 1)

/-- The removal phase with explicit exception flow. -/
def processRemovalsE (spec : Nat → CompSpec) (w : World) : Except World World := do
  let w1 ← removalLoopE spec (w.pendingRemoval.length + w.active.length + 1) w 0
  .ok { w1 with pendingRemoval := [] }

/-- `processPendingOperations` with explicit exception flow. -/
def processPendingOperationsE (spec : Nat → CompSpec) (w : World) :
    Except World World := do
  let r ← startLoopE spec w.pendingStart (w, [])
  let w1 := { r.1 with pendingStart := [] }
  if r.2.isEmpty then processRemovalsE spec w1
  else .ok { w1 with batches := w1.batches ++ [r.2] }

/-- Body of the `updateComponents` loop with explicit exception flow (the
`try { update } catch { report; disable }` of the source). -/
def updateBodyE (spec : Nat → CompSpec) (w : World) (p : Nat × CompState) :
    Except World World :=
  if (getObj w p.1).enabled && p.2.isInitialized && (spec p.1).hasUpdate then
    match callUpdateE spec p.1 w with
    | .ok w1 => .ok w1
    | .error w1 =>
        .ok { setObj w1 p.1 { getObj w1 p.1 with enabled := false } with
              events := w1.events ++ [.updateErr p.1] }
  else
    .ok w

/-- `updateComponents` with explicit exception flow. -/
def updateComponentsE (spec : Nat → CompSpec) (w : World) : Except World World :=
  w.active.foldlM (updateBodyE spec) w

/-- `Context.update` with explicit exception flow.  The source attaches
`.catch(console.error)` to the `processPendingOperations()` promise, so a
rejection there is swallowed and the frame continues with the state as
mutated up to the throw; `updateComponents` has no such guard, so an
uncaught error there would reach the caller. -/
def updateE (spec : Nat → CompSpec) (w : World) : Except World World :=
  match processPendingOperationsE spec w with
  | .ok w1 => updateComponentsE spec w1
  | .error w1 => updateComponentsE spec w1

/-- The trace segment appended by the guarded dispose call of
`removeComponentInternal` for one component. -/
def disposeEvts (spec : Nat → CompSpec) (c : Nat) : List Ev :=
  if (spec c).hasDispose then
    if (spec c).disposeThrows then [.disposeCall c, .disposeErr c]
    else [.disposeCall c]
  else []

/-- The trace segment appended by a removal phase that drains the given
list of components in order. -/
def disposeTrace (spec : Nat → CompSpec) : List Nat → List Ev
  | [] => []
  | c :: rest => disposeEvts spec c ++ disposeTrace spec rest

/-- A component is known to the registry: it is in `activeComponents`, in
`pendingStart`, or its `_ctx` was ever assigned (which covers components in
`pendingRemoval` and already-disposed ones, since `_ctx` is never
cleared). -/
def known (w : World) (c : Nat) : Bool :=
  hasA w.active c || decide (c ∈ w.pendingStart) || (getObj w c).ctxSet

/-- Every component object in the heap has an empty `_components` set — the
situation the source maintains, since no code path ever inserts into
`_components`. -/
def childrenEmpty (w : World) : Prop :=
  ∀ p ∈ w.comps, p.2.children = []

instance (w : World) : Decidable (childrenEmpty w) := by
  unfold childrenEmpty; infer_instance

/-!
Concrete component behaviours and executions used as counterexamples,
failing inputs and witnesses.
-/

/-- Component 1: synchronous start, update and dispose hooks; any other id:
asynchronous start only. -/
def specMix : Nat → CompSpec := fun n =>
  match n with
  | 1 => ⟨.syncOk, true, false, true, false⟩
  | _ => ⟨.async, false, false, false, false⟩

/-- Every component: asynchronous start and a dispose hook. -/
def specAsyncDispose : Nat → CompSpec := fun _ => ⟨.async, false, false, true, false⟩

/-- Every component: synchronous start and a dispose hook. -/
def specSyncDispose : Nat → CompSpec := fun _ => ⟨.syncOk, false, false, true, false⟩

/-- Component 1: update hook that throws; component 2: well-behaved update
hook. -/
def specThrower : Nat → CompSpec := fun n =>
  match n with
  | 1 => ⟨.syncOk, true, true, false, false⟩
  | _ => ⟨.syncOk, true, false, false, false⟩

/-- C1 scenario: component 1 registered and started, then requested for
removal, then component 2 (asynchronous start) registered. -/
def wC1pre : World :=
  (Context.addComponent
    (Context.removeComponent
      (Context.update specMix (Context.addComponent emptyWorld 1).1) 1) 2).1

/-- C1 scenario, after the frame that initiates the asynchronous start. -/
def wC1post : World := Context.update specMix wC1pre

/-- C2 failing input: component 1, asynchronous start that fails, dispose
hook present; after one frame and the failed settlement. -/
def wC2post : World :=
  settle specAsyncDispose
    (Context.update specAsyncDispose (Context.addComponent emptyWorld 1).1) 1 false

/-- C3 failing input: component 1 with in-flight asynchronous start is
requested for removal and disposed, then its start settles with failure. -/
def wC3post : World :=
  settle specAsyncDispose
    (Context.update specAsyncDispose
      (Context.removeComponent
        (Context.update specAsyncDispose (Context.addComponent emptyWorld 1).1) 1))
    1 false

/-- C7 / C9 scenario: a single component just registered (still
`PendingStart`). -/
def wPend : World := (Context.addComponent emptyWorld 1).1

/-- C8 failing input: parent 1 registered, child 2 added through
`parent.addComponent`, both started, then the parent removed. -/
def wC8post : World :=
  Context.update specSyncDispose
    (Context.removeComponent
      (Context.update specSyncDispose
        (Component.addComponent (Context.addComponent emptyWorld 1).1 1 2).1) 1)

/-- C5 witness state: components 1 and 2 active, enabled and initialized;
component 1's update hook throws. -/
def wTwoActive : World :=
  { comps := [(1, { ctxSet := true, enabled := true, children := [] }),
              (2, { ctxSet := true, enabled := true, children := [] })],
    active := [(1, ⟨true⟩), (2, ⟨true⟩)],
    pendingStart := [], pendingRemoval := [], batches := [], callbacks := [],
    events := [] }

/-- C10 witness state: component 1 registered, started and then removed —
gone from the registry but with `_ctx` still assigned. -/
def wRemoved : World :=
  Context.update specSyncDispose
    (Context.removeComponent
      (Context.update specSyncDispose (Context.addComponent emptyWorld 1).1) 1)

/-!
Helper lemmas: association lists, insertion-ordered sets and event counts.
-/

theorem lookupA_mem {α : Type} {l : List (Nat × α)} {k : Nat} {v : α}
    (h : lookupA l k = some v) : (k, v) ∈ l := by
  induction l with
  | nil => simp [lookupA] at h
  | cons p rest ih =>
      unfold lookupA at h
      by_cases hk : p.1 = k
      · rw [if_pos hk] at h
        have hv : p.2 = v := by injection h
        have hp : p = (k, v) := by
          cases p
          simp only at hk hv
          simp [hk, hv]
        rw [← hp]
        exact List.mem_cons_self p rest
      · rw [if_neg hk] at h
        exact List.mem_cons_of_mem _ (ih h)

theorem mem_hasA {α : Type} {l : List (Nat × α)} {k : Nat} {v : α}
    (h : (k, v) ∈ l) : hasA l k = true := by
  induction l with
  | nil => simp at h
  | cons p rest ih =>
      rcases List.mem_cons.mp h with h1 | h1
      · simp [hasA, lookupA, ← h1]
      · by_cases hk : p.1 = k
        · simp [hasA, lookupA, hk]
        · simpa [hasA, lookupA, hk] using ih h1

theorem lookupA_setA_self {α : Type} (l : List (Nat × α)) (k : Nat) (v : α) :
    lookupA (setA l k v) k = some v := by
  induction l with
  | nil => simp [setA, lookupA]
  | cons p rest ih =>
      by_cases hk : p.1 = k
      · simp [setA, hk, lookupA]
      · simp [setA, hk, lookupA, ih]

theorem lookupA_setA_ne {α : Type} (l : List (Nat × α)) {k d : Nat} (v : α)
    (h : d ≠ k) : lookupA (setA l k v) d = lookupA l d := by
  have hkd : ¬ k = d := fun hh => h hh.symm
  induction l with
  | nil => simp [setA, lookupA, hkd]
  | cons p rest ih =>
      by_cases hk : p.1 = k
      · have hpd : ¬ p.1 = d := by rw [hk]; exact hkd
        simp [setA, hk, lookupA, hkd, hpd]
      · unfold setA
        simp only [hk, if_false]
        unfold lookupA
        by_cases hd : p.1 = d
        · simp [hd]
        · simp [hd, ih]

theorem hasA_setA_mono {α : Type} {l : List (Nat × α)} {d : Nat} (k : Nat)
    (v : α) (h : hasA l d = true) : hasA (setA l k v) d = true := by
  by_cases hk : d = k
  · subst hk
    simp [hasA, lookupA_setA_self]
  · simpa [hasA, lookupA_setA_ne l v hk] using h

theorem hasA_setA_self {α : Type} (l : List (Nat × α)) (k : Nat) (v : α) :
    hasA (setA l k v) k = true := by
  simp [hasA, lookupA_setA_self]

theorem lookupA_eraseA_ne {α : Type} (l : List (Nat × α)) {k d : Nat}
    (h : d ≠ k) : lookupA (eraseA l k) d = lookupA l d := by
  have lookupA_cons : ∀ (p : Nat × α) (rest : List (Nat × α)) (j : Nat),
      lookupA (p :: rest) j = if p.1 = j then some p.2 else lookupA rest j :=
    fun _ _ _ => rfl
  induction l with
  | nil => rfl
  | cons p rest ih =>
      unfold eraseA at ih ⊢
      rw [List.filter_cons]
      by_cases hk : p.1 = k
      · have hpd : ¬ p.1 = d := by rw [hk]; exact fun hh => h hh.symm
        simp only [hk, bne_self_eq_false, Bool.false_eq_true, if_false]
        rw [ih, lookupA_cons, if_neg hpd]
      · have hne : (p.1 != k) = true := by simp [hk]
        simp only [hne, if_true]
        rw [lookupA_cons, lookupA_cons]
        by_cases hd : p.1 = d
        · rw [if_pos hd, if_pos hd]
        · rw [if_neg hd, if_neg hd]
          exact ih

theorem mem_insertS {l : List Nat} {k d : Nat} :
    d ∈ insertS l k ↔ d ∈ l ∨ d = k := by
  unfold insertS
  split
  · constructor
    · exact fun h => Or.inl h
    · rintro (h | h)
      · exact h
      · subst h; assumption
  · simp

theorem countEv_append (a b : List Ev) (t : Ev) :
    countEv (a ++ b) t = countEv a t + countEv b t := by
  induction a with
  | nil => simp [countEv]
  | cons e rest ih => simp [countEv, ih]; omega

theorem countEv_eq_zero {l : List Ev} {t : Ev} (h : t ∉ l) : countEv l t = 0 := by
  induction l with
  | nil => rfl
  | cons e rest ih =>
      have he : e ≠ t := fun hh => h (hh ▸ List.mem_cons_self e rest)
      have : t ∉ rest := fun hh => h (List.mem_cons_of_mem _ hh)
      simp [countEv, he, ih this]

/-!
Characterizations of the removal machinery.
-/

theorem removeComponent_eq (w : World) (c : Nat) :
    ∃ pr, Context.removeComponent w c = { w with pendingRemoval := pr } := by
  unfold Context.removeComponent
  split
  · exact ⟨insertS w.pendingRemoval c, rfl⟩
  · exact ⟨w.pendingRemoval, rfl⟩

theorem foldl_removeComponent_eq (l : List Nat) (w : World) :
    ∃ pr, l.foldl Context.removeComponent w = { w with pendingRemoval := pr } := by
  induction l generalizing w with
  | nil => exact ⟨w.pendingRemoval, rfl⟩
  | cons c rest ih =>
      obtain ⟨p1, h1⟩ := removeComponent_eq w c
      obtain ⟨p2, h2⟩ := ih (Context.removeComponent w c)
      refine ⟨p2, ?_⟩
      rw [List.foldl_cons, h2, h1]

theorem disposeStep_eq (spec : Nat → CompSpec) (c : Nat) (w : World) :
    Context.disposeStep spec c w =
      { w with events := w.events ++ disposeEvts spec c } := by
  unfold Context.disposeStep callDisposeE disposeEvts
  by_cases h1 : (spec c).hasDispose
  · by_cases h2 : (spec c).disposeThrows
    · simp [h1, h2]
    · simp [h1, h2]
  · simp [h1]

theorem removeComponentInternal_eq (spec : Nat → CompSpec) (c : Nat) (w : World) :
    ∃ pr, Context.removeComponentInternal spec c w =
      { w with events := w.events ++ disposeEvts spec c,
               active := eraseA w.active c,
               pendingRemoval := pr } := by
  unfold Context.removeComponentInternal
  rw [disposeStep_eq]
  exact foldl_removeComponent_eq _ _

theorem childrenEmpty_getObj {w : World} (h : childrenEmpty w) (c : Nat) :
    (getObj w c).children = [] := by
  unfold getObj
  cases hl : lookupA w.comps c with
  | none => simp [defaultObj]
  | some o =>
      have := h (c, o) (lookupA_mem hl)
      simpa using this

theorem removeComponentInternal_eq_childrenEmpty (spec : Nat → CompSpec)
    (c : Nat) (w : World) (h : childrenEmpty w) :
    Context.removeComponentInternal spec c w =
      { w with events := w.events ++ disposeEvts spec c,
               active := eraseA w.active c } := by
  unfold Context.removeComponentInternal
  rw [disposeStep_eq]
  have hch : (getObj { w with
      events := w.events ++ disposeEvts spec c,
      active := eraseA w.active c } c).children = [] := by
    have hce : childrenEmpty { w with
        events := w.events ++ disposeEvts spec c,
        active := eraseA w.active c } := h
    exact childrenEmpty_getObj hce c
  dsimp only
  rw [hch]
  rfl

theorem disposeEvts_kind (spec : Nat → CompSpec) (c : Nat) :
    ∀ e ∈ disposeEvts spec c, isRemovalEv e = true := by
  unfold disposeEvts
  intro e he
  by_cases h1 : (spec c).hasDispose
  · by_cases h2 : (spec c).disposeThrows
    · simp [h1, h2] at he
      rcases he with he | he <;> simp [he, isRemovalEv]
    · simp [h1, h2] at he
      simp [he, isRemovalEv]
  · simp [h1] at he

theorem removalLoop_eq_childrenEmpty (spec : Nat → CompSpec) (fuel : Nat) :
    ∀ (w : World) (i : Nat), childrenEmpty w →
      w.pendingRemoval.length ≤ i + fuel →
      Context.removalLoop spec fuel w i =
        { w with active := ((w.pendingRemoval.drop i).foldl eraseA w.active),
                 events := w.events ++ disposeTrace spec (w.pendingRemoval.drop i) } := by
  induction fuel with
  | zero =>
      intro w i hce hlen
      have hdrop : w.pendingRemoval.drop i = [] :=
        List.drop_eq_nil_of_le (by omega)
      unfold Context.removalLoop
      rw [hdrop]
      simp [disposeTrace]
  | succ n ih =>
      intro w i hce hlen
      unfold Context.removalLoop
      cases hdrop : w.pendingRemoval.drop i with
      | nil =>
          simp [disposeTrace]
      | cons c rest =>
          dsimp only
          have hdrop1 : w.pendingRemoval.drop (i + 1) = rest := by
            rw [← List.tail_drop, hdrop]
            rfl
          rw [removeComponentInternal_eq_childrenEmpty spec c w hce]
          have hlen1 : w.pendingRemoval.length ≤ (i + 1) + n := by omega
          rw [ih { w with
              events := w.events ++ disposeEvts spec c,
              active := eraseA w.active c } (i + 1) hce hlen1]
          simp [hdrop1, disposeTrace, List.append_assoc]

theorem processRemovals_eq_childrenEmpty (spec : Nat → CompSpec) (w : World)
    (hce : childrenEmpty w) :
    Context.processRemovals spec w =
      { w with active := w.pendingRemoval.foldl eraseA w.active,
               events := w.events ++ disposeTrace spec w.pendingRemoval,
               pendingRemoval := [] } := by
  unfold Context.processRemovals
  rw [removalLoop_eq_childrenEmpty spec _ w 0 hce (by omega)]
  simp [List.drop_zero]

theorem removalLoop_events (spec : Nat → CompSpec) (fuel : Nat) :
    ∀ (w : World) (i : Nat), ∃ R,
      (Context.removalLoop spec fuel w i).events = w.events ++ R ∧
      ∀ e ∈ R, isRemovalEv e = true := by
  induction fuel with
  | zero =>
      intro w i
      exact ⟨[], by simp [Context.removalLoop], by simp⟩
  | succ n ih =>
      intro w i
      unfold Context.removalLoop
      cases hdrop : w.pendingRemoval.drop i with
      | nil =>
          exact ⟨[], by simp, by simp⟩
      | cons c rest =>
          dsimp only
          obtain ⟨pr, hpr⟩ := removeComponentInternal_eq spec c w
          obtain ⟨R, hR, hkind⟩ := ih (Context.removeComponentInternal spec c w) (i + 1)
          refine ⟨disposeEvts spec c ++ R, ?_, ?_⟩
          · rw [hR, hpr]
            simp [List.append_assoc]
          · intro e he
            rcases List.mem_append.mp he with he | he
            · exact disposeEvts_kind spec c e he
            · exact hkind e he

theorem processRemovals_events (spec : Nat → CompSpec) (w : World) : ∃ R,
    (Context.processRemovals spec w).events = w.events ++ R ∧
    ∀ e ∈ R, isRemovalEv e = true := by
  unfold Context.processRemovals
  obtain ⟨R, hR, hkind⟩ := removalLoop_events spec _ w 0
  exact ⟨R, hR, hkind⟩

theorem hasA_foldl_eraseA {α : Type} {q : List Nat} {c : Nat} :
    ∀ {l : List (Nat × α)}, c ∉ q → hasA (q.foldl eraseA l) c = hasA l c := by
  induction q with
  | nil => intro l _; rfl
  | cons a rest ih =>
      intro l h
      have hac : c ≠ a := fun hh => h (hh ▸ List.mem_cons_self a rest)
      rw [List.foldl_cons, ih (fun hh => h (List.mem_cons_of_mem _ hh))]
      simp [hasA, lookupA_eraseA_ne l hac]

theorem foldl_eraseA_nil {α : Type} :
    ∀ (q : List Nat) (l : List (Nat × α)), (∀ p ∈ l, p.1 ∈ q) →
      q.foldl eraseA l = [] := by
  intro q
  induction q with
  | nil =>
      intro l h
      cases l with
      | nil => rfl
      | cons p rest => exact absurd (h p (List.mem_cons_self p rest)) (by simp)
  | cons a rest ih =>
      intro l h
      rw [List.foldl_cons]
      apply ih
      intro p hp
      have hm := List.mem_filter.mp hp
      have hpa : ¬ p.1 = a := by simpa using hm.2
      rcases List.mem_cons.mp (h p hm.1) with h1 | h1
      · exact absurd h1 hpa
      · exact h1

/-!
Characterizations of the add phase.
-/

theorem startOne_comps (spec : Nat → CompSpec) (acc : World × List Nat) (c : Nat) :
    (startOne spec acc c).1.comps = acc.1.comps := by
  cases hb : (spec c).startBeh <;> simp [startOne, callStartE, hb]

theorem startOne_pendingStart (spec : Nat → CompSpec) (acc : World × List Nat)
    (c : Nat) : (startOne spec acc c).1.pendingStart = acc.1.pendingStart := by
  cases hb : (spec c).startBeh <;> simp [startOne, callStartE, hb]

theorem startOne_batches (spec : Nat → CompSpec) (acc : World × List Nat)
    (c : Nat) : (startOne spec acc c).1.batches = acc.1.batches := by
  cases hb : (spec c).startBeh <;> simp [startOne, callStartE, hb]

theorem startOne_callbacks (spec : Nat → CompSpec) (acc : World × List Nat)
    (c : Nat) : (startOne spec acc c).1.callbacks = acc.1.callbacks := by
  cases hb : (spec c).startBeh <;> simp [startOne, callStartE, hb]

theorem startOne_events (spec : Nat → CompSpec) (acc : World × List Nat)
    (c : Nat) : ∃ S, (startOne spec acc c).1.events = acc.1.events ++ S ∧
      ∀ e ∈ S, isStartEv e = true := by
  cases hb : (spec c).startBeh
  · exact ⟨[], by simp [startOne, hb], by simp⟩
  · refine ⟨[.startCall c], by simp [startOne, callStartE, hb], ?_⟩
    intro e he
    simp at he
    simp [he, isStartEv]
  · refine ⟨[.startCall c, .startErr c], ?_, ?_⟩
    · simp [startOne, callStartE, hb]
    · intro e he
      simp at he
      rcases he with he | he <;> simp [he, isStartEv]
  · refine ⟨[.startCall c], by simp [startOne, callStartE, hb], ?_⟩
    intro e he
    simp at he
    simp [he, isStartEv]

theorem startOne_ps_no_async (spec : Nat → CompSpec) (acc : World × List Nat)
    (c : Nat) (h : (spec c).startBeh ≠ .async) :
    (startOne spec acc c).2 = acc.2 := by
  cases hb : (spec c).startBeh <;> simp [startOne, callStartE, hb]
  exact absurd hb h

theorem startOne_hasA_mono (spec : Nat → CompSpec) (acc : World × List Nat)
    (c d : Nat) (h : hasA acc.1.active d = true) :
    hasA (startOne spec acc c).1.active d = true := by
  cases hb : (spec c).startBeh <;>
    simp [startOne, callStartE, hb, hasA_setA_mono _ _ h, h]

theorem startOne_active_syncOk (spec : Nat → CompSpec) (acc : World × List Nat)
    (c : Nat) (h : (spec c).startBeh = .syncOk) :
    hasA (startOne spec acc c).1.active c = true := by
  simp [startOne, callStartE, h, hasA_setA_self]

theorem startOne_pr_not_mem (spec : Nat → CompSpec) (acc : World × List Nat)
    (c d : Nat) (h1 : d ∉ acc.1.pendingRemoval)
    (h2 : (spec d).startBeh ≠ .syncThrow) :
    d ∉ (startOne spec acc c).1.pendingRemoval := by
  cases hb : (spec c).startBeh <;> simp [startOne, callStartE, hb]
  · exact h1
  · exact h1
  · intro hmem
    rcases mem_insertS.mp hmem with hm | hm
    · exact h1 hm
    · subst hm
      exact h2 hb
  · exact h1

theorem startFold_comps (spec : Nat → CompSpec) (l : List Nat) :
    ∀ acc : World × List Nat,
      (l.foldl (startOne spec) acc).1.comps = acc.1.comps := by
  induction l with
  | nil => intro acc; rfl
  | cons c rest ih =>
      intro acc
      rw [List.foldl_cons, ih (startOne spec acc c), startOne_comps]

theorem startFold_pendingStart (spec : Nat → CompSpec) (l : List Nat) :
    ∀ acc : World × List Nat,
      (l.foldl (startOne spec) acc).1.pendingStart = acc.1.pendingStart := by
  induction l with
  | nil => intro acc; rfl
  | cons c rest ih =>
      intro acc
      rw [List.foldl_cons, ih (startOne spec acc c), startOne_pendingStart]

theorem startFold_batches (spec : Nat → CompSpec) (l : List Nat) :
    ∀ acc : World × List Nat,
      (l.foldl (startOne spec) acc).1.batches = acc.1.batches := by
  induction l with
  | nil => intro acc; rfl
  | cons c rest ih =>
      intro acc
      rw [List.foldl_cons, ih (startOne spec acc c), startOne_batches]

theorem startFold_callbacks (spec : Nat → CompSpec) (l : List Nat) :
    ∀ acc : World × List Nat,
      (l.foldl (startOne spec) acc).1.callbacks = acc.1.callbacks := by
  induction l with
  | nil => intro acc; rfl
  | cons c rest ih =>
      intro acc
      rw [List.foldl_cons, ih (startOne spec acc c), startOne_callbacks]

theorem startFold_events (spec : Nat → CompSpec) (l : List Nat) :
    ∀ acc : World × List Nat,
      ∃ S, (l.foldl (startOne spec) acc).1.events = acc.1.events ++ S ∧
        ∀ e ∈ S, isStartEv e = true := by
  induction l with
  | nil => intro acc; exact ⟨[], by simp, by simp⟩
  | cons c rest ih =>
      intro acc
      obtain ⟨S1, h1, k1⟩ := startOne_events spec acc c
      obtain ⟨S2, h2, k2⟩ := ih (startOne spec acc c)
      refine ⟨S1 ++ S2, ?_, ?_⟩
      · rw [List.foldl_cons, h2, h1, List.append_assoc]
      · intro e he
        rcases List.mem_append.mp he with he | he
        · exact k1 e he
        · exact k2 e he

theorem startFold_ps_no_async (spec : Nat → CompSpec) (l : List Nat)
    (h : ∀ c ∈ l, (spec c).startBeh ≠ .async) :
    ∀ acc : World × List Nat, (l.foldl (startOne spec) acc).2 = acc.2 := by
  induction l with
  | nil => intro acc; rfl
  | cons c rest ih =>
      intro acc
      rw [List.foldl_cons,
        ih (fun d hd => h d (List.mem_cons_of_mem _ hd)) (startOne spec acc c),
        startOne_ps_no_async spec acc c (h c (List.mem_cons_self c rest))]

theorem startFold_hasA_mono (spec : Nat → CompSpec) (l : List Nat) :
    ∀ (acc : World × List Nat) (d : Nat), hasA acc.1.active d = true →
      hasA (l.foldl (startOne spec) acc).1.active d = true := by
  induction l with
  | nil => intro acc d h; exact h
  | cons c rest ih =>
      intro acc d h
      rw [List.foldl_cons]
      exact ih (startOne spec acc c) d (startOne_hasA_mono spec acc c d h)

theorem startFold_active_syncOk (spec : Nat → CompSpec) (l : List Nat) :
    ∀ (acc : World × List Nat) (c : Nat), c ∈ l →
      (spec c).startBeh = .syncOk →
      hasA (l.foldl (startOne spec) acc).1.active c = true := by
  induction l with
  | nil => intro acc c h; simp at h
  | cons a rest ih =>
      intro acc c hm hb
      rw [List.foldl_cons]
      rcases List.mem_cons.mp hm with h1 | h1
      · subst h1
        exact startFold_hasA_mono spec rest (startOne spec acc c) c
          (startOne_active_syncOk spec acc c hb)
      · exact ih (startOne spec acc a) c h1 hb

theorem startFold_pr_not_mem (spec : Nat → CompSpec) (l : List Nat) :
    ∀ (acc : World × List Nat) (d : Nat), d ∉ acc.1.pendingRemoval →
      (spec d).startBeh ≠ .syncThrow →
      d ∉ (l.foldl (startOne spec) acc).1.pendingRemoval := by
  induction l with
  | nil => intro acc d h _; exact h
  | cons c rest ih =>
      intro acc d h1 h2
      rw [List.foldl_cons]
      exact ih (startOne spec acc c) d (startOne_pr_not_mem spec acc c d h1 h2) h2


/-!
Characterizations of the update phase.
-/

theorem updateOne_eq_skip (spec : Nat → CompSpec) (w : World) (c : Nat)
    (st : CompState)
    (hg : ((getObj w c).enabled && st.isInitialized && (spec c).hasUpdate) = false) :
    Context.updateOne spec w c st = w := by
  unfold Context.updateOne
  rw [if_neg]
  simp [hg]

theorem updateOne_eq_nothrow (spec : Nat → CompSpec) (w : World) (c : Nat)
    (st : CompState)
    (hg : ((getObj w c).enabled && st.isInitialized && (spec c).hasUpdate) = true)
    (ht : (spec c).updateThrows = false) :
    Context.updateOne spec w c st = { w with events := w.events ++ [.updateCall c] } := by
  unfold Context.updateOne callUpdateE
  rw [if_pos hg, ht]
  rfl

theorem updateOne_eq_throw (spec : Nat → CompSpec) (w : World) (c : Nat)
    (st : CompState)
    (hg : ((getObj w c).enabled && st.isInitialized && (spec c).hasUpdate) = true)
    (ht : (spec c).updateThrows = true) :
    Context.updateOne spec w c st =
      { w with comps := setA w.comps c { getObj w c with enabled := false },
               events := (w.events ++ [.updateCall c]) ++ [.updateErr c] } := by
  unfold Context.updateOne callUpdateE
  rw [if_pos hg, ht]
  rfl

theorem updateOne_active (spec : Nat → CompSpec) (w : World) (c : Nat)
    (st : CompState) : (Context.updateOne spec w c st).active = w.active := by
  cases hg : (getObj w c).enabled && st.isInitialized && (spec c).hasUpdate
  · rw [updateOne_eq_skip spec w c st hg]
  · cases ht : (spec c).updateThrows
    · rw [updateOne_eq_nothrow spec w c st hg ht]
    · rw [updateOne_eq_throw spec w c st hg ht]

theorem updateOne_obj_other (spec : Nat → CompSpec) (w : World) (c : Nat)
    (st : CompState) (d : Nat) (hd : d ≠ c) :
    getObj (Context.updateOne spec w c st) d = getObj w d := by
  cases hg : (getObj w c).enabled && st.isInitialized && (spec c).hasUpdate
  · rw [updateOne_eq_skip spec w c st hg]
  · cases ht : (spec c).updateThrows
    · rw [updateOne_eq_nothrow spec w c st hg ht]
      simp [getObj]
    · rw [updateOne_eq_throw spec w c st hg ht]
      simp [getObj, lookupA_setA_ne _ _ hd]

theorem updateOne_events (spec : Nat → CompSpec) (w : World) (c : Nat)
    (st : CompState) : ∃ U, (Context.updateOne spec w c st).events = w.events ++ U ∧
      ∀ e ∈ U, isUpdateEv e = true ∧ evId e = c := by
  cases hg : (getObj w c).enabled && st.isInitialized && (spec c).hasUpdate
  · rw [updateOne_eq_skip spec w c st hg]
    exact ⟨[], by simp, by simp⟩
  · cases ht : (spec c).updateThrows
    · rw [updateOne_eq_nothrow spec w c st hg ht]
      refine ⟨[.updateCall c], rfl, ?_⟩
      intro e he
      simp at he
      simp [he, isUpdateEv, evId]
    · rw [updateOne_eq_throw spec w c st hg ht]
      refine ⟨[.updateCall c, .updateErr c], by simp, ?_⟩
      intro e he
      simp at he
      rcases he with he | he <;> simp [he, isUpdateEv, evId]

theorem updateOne_count_other (spec : Nat → CompSpec) (w : World) (c : Nat)
    (st : CompState) (d : Nat) (hd : d ≠ c) :
    countEv (Context.updateOne spec w c st).events (.updateCall d) =
      countEv w.events (.updateCall d) := by
  obtain ⟨U, hU, hk⟩ := updateOne_events spec w c st
  rw [hU, countEv_append]
  have hnm : Ev.updateCall d ∉ U := by
    intro hmem
    have h2 := (hk _ hmem).2
    simp [evId] at h2
    exact hd h2
  rw [countEv_eq_zero hnm]
  omega

theorem updateOne_count_self (spec : Nat → CompSpec) (w : World) (c : Nat)
    (st : CompState)
    (hg : ((getObj w c).enabled && st.isInitialized && (spec c).hasUpdate) = true) :
    countEv (Context.updateOne spec w c st).events (.updateCall c) =
      countEv w.events (.updateCall c) + 1 := by
  cases ht : (spec c).updateThrows
  · rw [updateOne_eq_nothrow spec w c st hg ht]
    simp [countEv_append, countEv]
  · rw [updateOne_eq_throw spec w c st hg ht]
    simp [countEv_append, countEv]

theorem updateOne_obj_self_throws (spec : Nat → CompSpec) (w : World) (c : Nat)
    (st : CompState)
    (hg : ((getObj w c).enabled && st.isInitialized && (spec c).hasUpdate) = true)
    (ht : (spec c).updateThrows = true) :
    getObj (Context.updateOne spec w c st) c = { getObj w c with enabled := false } := by
  rw [updateOne_eq_throw spec w c st hg ht]
  simp [getObj, lookupA_setA_self]

theorem updFold_active (spec : Nat → CompSpec) (l : List (Nat × CompState)) :
    ∀ w : World,
      (l.foldl (fun acc p => Context.updateOne spec acc p.1 p.2) w).active =
        w.active := by
  induction l with
  | nil => intro w; rfl
  | cons p rest ih =>
      intro w
      rw [List.foldl_cons, ih, updateOne_active]

theorem updateComponents_active (spec : Nat → CompSpec) (w : World) :
    (Context.updateComponents spec w).active = w.active :=
  updFold_active spec w.active w

theorem updFold_events (spec : Nat → CompSpec) (l : List (Nat × CompState)) :
    ∀ w : World, ∃ U,
      (l.foldl (fun acc p => Context.updateOne spec acc p.1 p.2) w).events =
        w.events ++ U ∧ ∀ e ∈ U, isUpdateEv e = true := by
  induction l with
  | nil => intro w; exact ⟨[], by simp, by simp⟩
  | cons p rest ih =>
      intro w
      obtain ⟨U1, h1, k1⟩ := updateOne_events spec w p.1 p.2
      obtain ⟨U2, h2, k2⟩ := ih (Context.updateOne spec w p.1 p.2)
      refine ⟨U1 ++ U2, ?_, ?_⟩
      · rw [List.foldl_cons, h2, h1, List.append_assoc]
      · intro e he
        rcases List.mem_append.mp he with he | he
        · exact (k1 e he).1
        · exact k2 e he

theorem updFold_obj_not_mem (spec : Nat → CompSpec) (l : List (Nat × CompState)) :
    ∀ (w : World) (d : Nat), (∀ p ∈ l, p.1 ≠ d) →
      getObj (l.foldl (fun acc p => Context.updateOne spec acc p.1 p.2) w) d =
        getObj w d := by
  induction l with
  | nil => intro w d _; rfl
  | cons p rest ih =>
      intro w d h
      rw [List.foldl_cons,
        ih (Context.updateOne spec w p.1 p.2) d
          (fun q hq => h q (List.mem_cons_of_mem _ hq)),
        updateOne_obj_other spec w p.1 p.2 d
          (fun hh => h p (List.mem_cons_self p rest) hh.symm)]

theorem updFold_count_not_mem (spec : Nat → CompSpec) (l : List (Nat × CompState)) :
    ∀ (w : World) (d : Nat), (∀ p ∈ l, p.1 ≠ d) →
      countEv ((l.foldl (fun acc p => Context.updateOne spec acc p.1 p.2) w).events)
          (.updateCall d) = countEv w.events (.updateCall d) := by
  induction l with
  | nil => intro w d _; rfl
  | cons p rest ih =>
      intro w d h
      rw [List.foldl_cons,
        ih (Context.updateOne spec w p.1 p.2) d
          (fun q hq => h q (List.mem_cons_of_mem _ hq)),
        updateOne_count_other spec w p.1 p.2 d
          (fun hh => h p (List.mem_cons_self p rest) hh.symm)]

theorem updFold_main (spec : Nat → CompSpec) (l : List (Nat × CompState)) :
    ∀ (w : World) (d : Nat) (st2 : CompState), (d, st2) ∈ l →
      (l.map Prod.fst).Nodup →
      (getObj w d).enabled = true → st2.isInitialized = true →
      (spec d).hasUpdate = true →
      countEv ((l.foldl (fun acc p => Context.updateOne spec acc p.1 p.2) w).events)
          (.updateCall d) = countEv w.events (.updateCall d) + 1 ∧
      ((spec d).updateThrows = true →
        (getObj (l.foldl (fun acc p => Context.updateOne spec acc p.1 p.2) w)
          d).enabled = false) := by
  induction l with
  | nil => intro w d st2 hmem; simp at hmem
  | cons p rest ih =>
      intro w d st2 hmem hnd hen hini hup
      rw [List.map_cons] at hnd
      have hnd2 := List.nodup_cons.mp hnd
      rcases List.mem_cons.mp hmem with heq | hrest
      · have hp1 : p.1 = d := by rw [← heq]
        have hp2 : p.2 = st2 := by rw [← heq]
        have hnotin : ∀ q ∈ rest, q.1 ≠ d := by
          intro q hq hh
          exact (hp1 ▸ hnd2.1) (hh ▸ List.mem_map_of_mem Prod.fst hq)
        have hg : ((getObj w d).enabled && st2.isInitialized &&
            (spec d).hasUpdate) = true := by
          simp [hen, hini, hup]
        constructor
        · rw [List.foldl_cons, hp1, hp2,
            updFold_count_not_mem spec rest _ d hnotin,
            updateOne_count_self spec w d st2 hg]
        · intro ht
          rw [List.foldl_cons, hp1, hp2,
            updFold_obj_not_mem spec rest _ d hnotin,
            updateOne_obj_self_throws spec w d st2 hg ht]
      · have hp1 : p.1 ≠ d := by
          intro hh
          exact hnd2.1 (hh ▸ List.mem_map_of_mem Prod.fst hrest)
        have hobj : getObj (Context.updateOne spec w p.1 p.2) d = getObj w d :=
          updateOne_obj_other spec w p.1 p.2 d (fun hh => hp1 hh.symm)
        have hih := ih (Context.updateOne spec w p.1 p.2) d st2 hrest hnd2.2
          (hobj ▸ hen) hini hup
        constructor
        · rw [List.foldl_cons, hih.1,
            updateOne_count_other spec w p.1 p.2 d (fun hh => hp1 hh.symm)]
        · intro ht
          rw [List.foldl_cons]
          exact hih.2 ht

/-!
Frame-level composition lemmas.
-/

theorem removalLoop_of_nil (spec : Nat → CompSpec) (f : Nat) (w : World)
    (i : Nat) (h : w.pendingRemoval = []) : Context.removalLoop spec f w i = w := by
  cases f with
  | zero => rfl
  | succ n =>
      unfold Context.removalLoop
      rw [h]
      simp

theorem processPendingOperations_id (spec : Nat → CompSpec) (w : World)
    (h1 : w.pendingStart = []) (h2 : w.pendingRemoval = []) :
    Context.processPendingOperations spec w = w := by
  unfold Context.processPendingOperations
  rw [h1]
  dsimp only [List.foldl]
  have hw : { w with pendingStart := ([] : List Nat) } = w := by rw [← h1]
  have hemp : ([] : List Nat).isEmpty = true := rfl
  rw [if_pos hemp, hw]
  unfold Context.processRemovals
  dsimp only
  rw [removalLoop_of_nil spec _ w 0 h2]
  rw [← h2]

theorem processPending_events_no_async (spec : Nat → CompSpec) (w : World)
    (h : ∀ c ∈ w.pendingStart, (spec c).startBeh ≠ .async) :
    ∃ S R, (Context.processPendingOperations spec w).events = w.events ++ S ++ R ∧
      (∀ e ∈ S, isStartEv e = true) ∧ (∀ e ∈ R, isRemovalEv e = true) := by
  obtain ⟨S, hS, kS⟩ := startFold_events spec w.pendingStart (w, [])
  obtain ⟨R, hR, kR⟩ := processRemovals_events spec
    { (w.pendingStart.foldl (startOne spec) (w, [])).1 with pendingStart := [] }
  refine ⟨S, R, ?_, kS, kR⟩
  unfold Context.processPendingOperations
  dsimp only
  rw [show (w.pendingStart.foldl (startOne spec) (w, [])).2.isEmpty = true from by
        rw [startFold_ps_no_async spec w.pendingStart h (w, [])]
        rfl]
  rw [if_pos rfl, hR]
  dsimp only
  rw [hS]

theorem processPending_hasA_syncOk (spec : Nat → CompSpec) (w : World) (c : Nat)
    (hmem : c ∈ w.pendingStart) (hb : (spec c).startBeh = .syncOk)
    (hpr : c ∉ w.pendingRemoval) (hce : childrenEmpty w) :
    hasA (Context.processPendingOperations spec w).active c = true := by
  unfold Context.processPendingOperations
  dsimp only
  have hact : hasA (w.pendingStart.foldl (startOne spec) (w, [])).1.active c = true :=
    startFold_active_syncOk spec w.pendingStart (w, []) c hmem hb
  split
  · have hce1 : childrenEmpty (w.pendingStart.foldl (startOne spec) (w, [])).1 := by
      unfold childrenEmpty
      rw [startFold_comps spec w.pendingStart (w, [])]
      exact hce
    rw [processRemovals_eq_childrenEmpty spec
      { (w.pendingStart.foldl (startOne spec) (w, [])).1 with pendingStart := [] } hce1]
    dsimp only
    have hnpr : c ∉ (w.pendingStart.foldl (startOne spec) (w, [])).1.pendingRemoval :=
      startFold_pr_not_mem spec w.pendingStart (w, []) c hpr
        (by rw [hb]; intro hh; cases hh)
    rw [hasA_foldl_eraseA hnpr]
    exact hact
  · exact hact

/-!
Characterization of `clear`.
-/

theorem removeFold_eq (l : List (Nat × CompState)) :
    ∀ w : World, (∀ p ∈ l, hasA w.active p.1 = true) →
      l.foldl (fun acc p => Context.removeComponent acc p.1) w =
        { w with pendingRemoval :=
            l.foldl (fun pr p => insertS pr p.1) w.pendingRemoval } := by
  induction l with
  | nil => intro w _; rfl
  | cons p rest ih =>
      intro w h
      rw [List.foldl_cons]
      have hrc : Context.removeComponent w p.1 =
          { w with pendingRemoval := insertS w.pendingRemoval p.1 } := by
        unfold Context.removeComponent
        rw [if_pos (h p (List.mem_cons_self p rest))]
      rw [hrc, ih { w with pendingRemoval := insertS w.pendingRemoval p.1 }
        (fun q hq => h q (List.mem_cons_of_mem _ hq))]
      rfl

theorem foldl_insertS_nodup :
    ∀ (ks pr : List Nat), (∀ k ∈ ks, k ∉ pr) → ks.Nodup →
      ks.foldl insertS pr = pr ++ ks := by
  intro ks
  induction ks with
  | nil => intro pr _ _; simp
  | cons k rest ih =>
      intro pr h hnd
      have hnd2 := List.nodup_cons.mp hnd
      rw [List.foldl_cons]
      have hik : insertS pr k = pr ++ [k] := by
        unfold insertS
        rw [if_neg (h k (List.mem_cons_self k rest))]
      rw [hik, ih (pr ++ [k]) ?_ hnd2.2]
      · simp
      · intro j hj
        simp only [List.mem_append, List.mem_singleton]
        rintro (hjp | hjk)
        · exact h j (List.mem_cons_of_mem _ hj) hjp
        · exact hnd2.1 (hjk ▸ hj)

/-- Claim C9 (amended): when no component is pending start, `Context.clear`
requests removal of every active component and drains those removals
synchronously — each active component's guarded dispose step runs once, in
registration order — leaving the active set, the pending sets and the
callback table empty.  (As stated the claim is false: a component still in
`pendingStart` is not removed by `clear`; the drain instead runs its start
hook and leaves it active — see the counterexample.) -/
theorem c9_clear_drains_active_eagerly (spec : Nat → CompSpec) (w : World)
    (h1 : w.pendingStart = []) (h2 : w.pendingRemoval = [])
    (h3 : (w.active.map Prod.fst).Nodup) (h4 : childrenEmpty w) :
    Context.clear spec w =
      { w with active := [], pendingRemoval := [], callbacks := [],
               events := w.events ++ disposeTrace spec (w.active.map Prod.fst) } := by
  unfold Context.clear
  dsimp only
  rw [removeFold_eq w.active w (fun p hp => mem_hasA hp)]
  have hkeys : w.active.foldl (fun pr p => insertS pr p.1) w.pendingRemoval =
      w.active.map Prod.fst := by
    rw [h2, ← List.foldl_map (Prod.fst) insertS]
    rw [foldl_insertS_nodup (w.active.map Prod.fst) [] (by simp) h3]
    simp
  rw [hkeys]
  have hppo : Context.processPendingOperations spec
      { w with pendingRemoval := w.active.map Prod.fst } =
      Context.processRemovals spec { w with pendingRemoval := w.active.map Prod.fst } := by
    unfold Context.processPendingOperations
    rw [h1]
    dsimp only [List.foldl]
    have hemp : ([] : List Nat).isEmpty = true := rfl
    rw [if_pos hemp]
  rw [hppo]
  have hce2 : childrenEmpty { w with pendingRemoval := w.active.map Prod.fst } := h4
  rw [processRemovals_eq_childrenEmpty spec _ hce2]
  dsimp only
  rw [foldl_eraseA_nil (w.active.map Prod.fst) w.active
    (fun p hp => List.mem_map_of_mem Prod.fst hp)]

/-!
The exception-explicit translation agrees with the total model: every
hook-call site is guarded by a catch, so no phase ever produces an error.
-/

theorem startBodyE_eq (spec : Nat → CompSpec) (acc : World × List Nat)
    (c : Nat) : startBodyE spec acc c = .ok (startOne spec acc c) := by
  cases hb : (spec c).startBeh <;> simp [startBodyE, startOne, callStartE, hb]

theorem startLoopE_eq (spec : Nat → CompSpec) (l : List Nat) :
    ∀ acc : World × List Nat,
      startLoopE spec l acc = .ok (l.foldl (startOne spec) acc) := by
  induction l with
  | nil => intro acc; rfl
  | cons c rest ih =>
      intro acc
      unfold startLoopE
      rw [startBodyE_eq]
      exact ih (startOne spec acc c)

theorem disposeStepE_eq (spec : Nat → CompSpec) (c : Nat) (w : World) :
    disposeStepE spec c w = .ok (Context.disposeStep spec c w) := by
  unfold disposeStepE Context.disposeStep
  by_cases h1 : (spec c).hasDispose
  · cases h2 : (spec c).disposeThrows <;>
      simp [h1, h2, callDisposeE]
  · simp [h1]

theorem removeComponentInternalE_eq (spec : Nat → CompSpec) (c : Nat)
    (w : World) : removeComponentInternalE spec c w =
      .ok (Context.removeComponentInternal spec c w) := by
  unfold removeComponentInternalE Context.removeComponentInternal
  rw [disposeStepE_eq]
  rfl

theorem removalLoopE_eq (spec : Nat → CompSpec) :
    ∀ (fuel : Nat) (w : World) (i : Nat),
      removalLoopE spec fuel w i = .ok (Context.removalLoop spec fuel w i) := by
  intro fuel
  induction fuel with
  | zero => intro w i; rfl
  | succ n ih =>
      intro w i
      unfold removalLoopE Context.removalLoop
      cases hdrop : w.pendingRemoval.drop i with
      | nil => rfl
      | cons c rest =>
          dsimp only
          rw [removeComponentInternalE_eq]
          exact ih (Context.removeComponentInternal spec c w) (i + 1)

theorem processRemovalsE_eq (spec : Nat → CompSpec) (w : World) :
    processRemovalsE spec w = .ok (Context.processRemovals spec w) := by
  unfold processRemovalsE Context.processRemovals
  rw [removalLoopE_eq]
  rfl

theorem exc_bind_ok {α β : Type} (a : α) (f : α → Except World β) :
    (Except.ok a >>= f) = f a := rfl

theorem processPendingOperationsE_eq (spec : Nat → CompSpec) (w : World) :
    processPendingOperationsE spec w =
      .ok (Context.processPendingOperations spec w) := by
  unfold processPendingOperationsE Context.processPendingOperations
  rw [startLoopE_eq, exc_bind_ok]
  dsimp only
  by_cases hemp : (w.pendingStart.foldl (startOne spec) (w, [])).2.isEmpty = true
  · rw [if_pos hemp, if_pos hemp]
    exact processRemovalsE_eq spec _
  · rw [if_neg hemp, if_neg hemp]

theorem updateBodyE_eq (spec : Nat → CompSpec) (w : World) (p : Nat × CompState) :
    updateBodyE spec w p = .ok (Context.updateOne spec w p.1 p.2) := by
  unfold updateBodyE Context.updateOne callUpdateE
  cases ht : (spec p.1).updateThrows <;> simp [ht] <;> split <;> rfl

theorem updateComponentsE_eq_fold (spec : Nat → CompSpec)
    (l : List (Nat × CompState)) :
    ∀ w : World, l.foldlM (fun acc p => updateBodyE spec acc p) w =
      .ok (l.foldl (fun acc p => Context.updateOne spec acc p.1 p.2) w) := by
  induction l with
  | nil => intro w; rfl
  | cons p rest ih =>
      intro w
      rw [List.foldlM_cons, updateBodyE_eq]
      exact ih (Context.updateOne spec w p.1 p.2)

theorem updateComponentsE_eq (spec : Nat → CompSpec) (w : World) :
    updateComponentsE spec w = .ok (Context.updateComponents spec w) := by
  unfold updateComponentsE Context.updateComponents
  exact updateComponentsE_eq_fold spec w.active w

theorem updateE_eq (spec : Nat → CompSpec) (w : World) :
    updateE spec w = .ok (Context.update spec w) := by
  unfold updateE Context.update
  rw [processPendingOperationsE_eq]
  exact updateComponentsE_eq spec _

/-!
Claim theorems.
-/

/-- Claim C1 (amended): within a frame that initiates no asynchronous
start, `Context.update` appends its events strictly in phase order — every
add-phase event (start invocations and start-error reports) precedes every
removal-phase event (dispose invocations and dispose-error reports), which
precedes every update-phase event.  (As stated — "including frames in which
an asynchronous start result is still in flight" — the claim is false,
because a frame that initiates an asynchronous start defers its removal
phase past the update phase; see the counterexample.) -/
theorem c1_frame_phase_order (spec : Nat → CompSpec) (w : World)
    (h : ∀ c ∈ w.pendingStart, (spec c).startBeh ≠ .async) :
    ∃ S R U, (Context.update spec w).events = w.events ++ S ++ R ++ U ∧
      (∀ e ∈ S, isStartEv e = true) ∧ (∀ e ∈ R, isRemovalEv e = true) ∧
      (∀ e ∈ U, isUpdateEv e = true) := by
  obtain ⟨S, R, hSR, kS, kR⟩ := processPending_events_no_async spec w h
  obtain ⟨U, hU, kU⟩ := updFold_events spec
    (Context.processPendingOperations spec w).active
    (Context.processPendingOperations spec w)
  refine ⟨S, R, U, ?_, kS, kR, kU⟩
  have hU2 : (Context.updateComponents spec
      (Context.processPendingOperations spec w)).events =
      (Context.processPendingOperations spec w).events ++ U := hU
  show (Context.updateComponents spec
      (Context.processPendingOperations spec w)).events = w.events ++ S ++ R ++ U
  rw [hU2, hSR]

/-- Claim C1 witness: a concrete frame with one synchronous pending start. -/
theorem c1_frame_phase_order_witness :
    (∀ c ∈ wPend.pendingStart, (specSyncDispose c).startBeh ≠ .async) ∧
    (∃ S R U, (Context.update specSyncDispose wPend).events =
        wPend.events ++ S ++ R ++ U ∧
      (∀ e ∈ S, isStartEv e = true) ∧ (∀ e ∈ R, isRemovalEv e = true) ∧
      (∀ e ∈ U, isUpdateEv e = true)) :=
  ⟨by decide, c1_frame_phase_order specSyncDispose wPend (by decide)⟩

/-- Claim C1 counterexample: in the frame from `wC1pre`, component 1 is
pending removal and component 2 initiates an asynchronous start; the frame
invokes component 1's update hook while the pending removal stays
unprocessed (no dispose event, component 1 still pending removal and still
active afterwards) — so removals are NOT processed before updates in a
frame with an asynchronous start in flight. -/
theorem c1_async_defers_removal_counterexample :
    wC1pre.pendingRemoval = [1] ∧ hasA wC1pre.active 1 = true ∧
    wC1post.events = [.startCall 1, .updateCall 1, .startCall 2, .updateCall 1] ∧
    countEv wC1post.events (.disposeCall 1) = 0 ∧
    wC1post.pendingRemoval = [1] ∧ hasA wC1post.active 1 = true := by decide

/-- Claim C2 (code bug): a component whose asynchronous start fails IS
disposed by the code — the removal phase triggered by the failed settlement
runs `removeComponentInternal`, whose dispose call is not guarded by any
state check — contradicting the spec and the repository's own test, which
asserts `disposeCalled` is false for failed async components. -/
theorem c2_failed_async_start_disposed :
    wC2post.events = [.startCall 1, .asyncErr 1, .disposeCall 1] ∧
    hasA wC2post.active 1 = false ∧
    countEv wC2post.events (.disposeCall 1) = 1 := by decide

/-- Claim C3 (code bug): dispose is NOT invoked at most once.  Component 1
starts asynchronously, is removed (and disposed) while its start is in
flight, and when the start later fails the catch handler re-adds it to
`pendingRemoval`, so the resumed removal phase disposes it a second time. -/
theorem c3_double_dispose :
    countEv wC3post.events (.disposeCall 1) = 2 ∧
    wC3post.events =
      [.startCall 1, .disposeCall 1, .asyncErr 1, .disposeCall 1] := by decide

/-- Claim C4: `Context.update` never propagates a component-hook exception
to its caller — in the exception-explicit translation `updateE`, where an
uncaught hook error would surface as `Except.error`, every frame returns
`Except.ok` of the total model's result, for every combination of throwing
start, update and dispose hooks. -/
theorem c4_update_contains_hook_errors (spec : Nat → CompSpec) (w : World) :
    updateE spec w = .ok (Context.update spec w) :=
  updateE_eq spec w

/-- Claim C5: when an active, enabled, initialized component's update hook
throws during a frame, the component's enabled flag becomes false while it
stays registered in `activeComponents`, the frame completes normally (the
exception-explicit frame returns `Except.ok`), and every active, enabled,
initialized component with an update hook — the thrower included — still
receives exactly one update call in that same frame. -/
theorem c5_update_throw_disables_but_frame_continues (spec : Nat → CompSpec)
    (w : World) (hps : w.pendingStart = []) (hpr : w.pendingRemoval = [])
    (hnd : (w.active.map Prod.fst).Nodup)
    (c : Nat) (st : CompState) (hc : (c, st) ∈ w.active)
    (hen : (getObj w c).enabled = true) (hini : st.isInitialized = true)
    (hup : (spec c).hasUpdate = true) (hth : (spec c).updateThrows = true) :
    (getObj (Context.update spec w) c).enabled = false ∧
    hasA (Context.update spec w).active c = true ∧
    updateE spec w = .ok (Context.update spec w) ∧
    (∀ d st2, (d, st2) ∈ w.active → (getObj w d).enabled = true →
      st2.isInitialized = true → (spec d).hasUpdate = true →
      countEv (Context.update spec w).events (.updateCall d) =
        countEv w.events (.updateCall d) + 1) := by
  have hid : Context.processPendingOperations spec w = w :=
    processPendingOperations_id spec w hps hpr
  have hupd : Context.update spec w = Context.updateComponents spec w := by
    unfold Context.update
    rw [hid]
  refine ⟨?_, ?_, updateE_eq spec w, ?_⟩
  · rw [hupd]
    exact (updFold_main spec w.active w c st hc hnd hen hini hup).2 hth
  · rw [hupd, show (Context.updateComponents spec w).active = w.active from
      updateComponents_active spec w]
    exact mem_hasA hc
  · intro d st2 hd hend hinid hupd2
    rw [hupd]
    exact (updFold_main spec w.active w d st2 hd hnd hend hinid hupd2).1

/-- Claim C5 witness: components 1 and 2 active and enabled, component 1's
update hook throws; component 1 ends up disabled and component 2 still
receives its update call in the same frame. -/
theorem c5_witness :
    wTwoActive.pendingStart = [] ∧ wTwoActive.pendingRemoval = [] ∧
    (wTwoActive.active.map Prod.fst).Nodup ∧
    (1, (⟨true⟩ : CompState)) ∈ wTwoActive.active ∧
    (getObj wTwoActive 1).enabled = true ∧
    (specThrower 1).hasUpdate = true ∧ (specThrower 1).updateThrows = true ∧
    (getObj (Context.update specThrower wTwoActive) 1).enabled = false ∧
    countEv (Context.update specThrower wTwoActive).events (.updateCall 2) =
      countEv wTwoActive.events (.updateCall 2) + 1 := by
  refine ⟨by decide, by decide, by decide, by decide, by decide, by decide,
    by decide, ?_, ?_⟩
  · exact (c5_update_throw_disables_but_frame_continues specThrower wTwoActive
      (by decide) (by decide) (by decide) 1 ⟨true⟩ (by decide) (by decide)
      (by decide) (by decide) (by decide)).1
  · exact (c5_update_throw_disables_but_frame_continues specThrower wTwoActive
      (by decide) (by decide) (by decide) 1 ⟨true⟩ (by decide) (by decide)
      (by decide) (by decide) (by decide)).2.2.2 2 ⟨true⟩ (by decide)
      (by decide) (by decide) (by decide)

/-- Claim C6: registering a component that is already known to the registry
— in `activeComponents`, in `pendingStart`, or with its context ever
assigned (covering pending-removal and disposed components) — fails with a
synchronous error and leaves the scheduler state unchanged. -/
theorem c6_duplicate_registration_rejected (w : World) (c : Nat)
    (h : known w c = true) :
    (Context.addComponent w c).2.isSome = true ∧
    (Context.addComponent w c).1 = w := by
  unfold Context.addComponent
  by_cases h1 : (hasA w.active c || decide (c ∈ w.pendingStart)) = true
  · rw [if_pos h1]
    exact ⟨rfl, rfl⟩
  · have hctx : (getObj w c).ctxSet = true := by
      cases hcs : (getObj w c).ctxSet
      · exfalso
        unfold known at h
        rw [hcs] at h
        simp only [Bool.or_false] at h
        exact h1 h
      · rfl
    rw [if_neg h1, if_pos hctx]
    exact ⟨rfl, rfl⟩

/-- Claim C6 witness: re-registering a component that is still pending
start fails and changes nothing. -/
theorem c6_duplicate_registration_rejected_witness :
    known wPend 1 = true ∧
    ((Context.addComponent wPend 1).2.isSome = true ∧
      (Context.addComponent wPend 1).1 = wPend) :=
  ⟨by decide, c6_duplicate_registration_rejected wPend 1 (by decide)⟩

/-- Claim C7 (amended): an explicit removal request marks a component
`PendingRemoval` only when it is in `activeComponents` (Active or
Initializing); for a component that is unknown, already removed, or —
contrary to the claim as stated — still in `pendingStart`, the request is a
no-op, and a pending-start component so targeted still becomes active on
the next frame.  (The claim's assertion that a `PendingStart` component is
marked `PendingRemoval` is refuted by the counterexample.) -/
theorem c7_removal_request_requires_active (spec : Nat → CompSpec) (w : World)
    (c : Nat) :
    (hasA w.active c = false → Context.removeComponent w c = w) ∧
    (hasA w.active c = true → Context.removeComponent w c =
        { w with pendingRemoval := insertS w.pendingRemoval c }) ∧
    (hasA w.active c = false → c ∈ w.pendingStart →
      (spec c).startBeh = .syncOk → c ∉ w.pendingRemoval → childrenEmpty w →
      hasA (Context.update spec (Context.removeComponent w c)).active c = true) := by
  refine ⟨?_, ?_, ?_⟩
  · intro h
    unfold Context.removeComponent
    rw [if_neg (by simp [h])]
  · intro h
    unfold Context.removeComponent
    rw [if_pos h]
  · intro h hm hb hpr hce
    have hnoop : Context.removeComponent w c = w := by
      unfold Context.removeComponent
      rw [if_neg (by simp [h])]
    rw [hnoop]
    show hasA (Context.updateComponents spec
      (Context.processPendingOperations spec w)).active c = true
    rw [updateComponents_active]
    exact processPending_hasA_syncOk spec w c hm hb hpr hce

/-- Claim C7 witness: component 1 is pending start; the removal request is
a no-op and the component still becomes active on the next frame. -/
theorem c7_removal_request_requires_active_witness :
    hasA wPend.active 1 = false ∧ 1 ∈ wPend.pendingStart ∧
    (specSyncDispose 1).startBeh = .syncOk ∧ 1 ∉ wPend.pendingRemoval ∧
    childrenEmpty wPend ∧
    (Context.removeComponent wPend 1 = wPend) ∧
    hasA (Context.update specSyncDispose
      (Context.removeComponent wPend 1)).active 1 = true := by
  refine ⟨by decide, by decide, by decide, by decide, by decide, ?_, ?_⟩
  · exact (c7_removal_request_requires_active specSyncDispose wPend 1).1 (by decide)
  · exact (c7_removal_request_requires_active specSyncDispose wPend 1).2.2
      (by decide) (by decide) (by decide) (by decide) (by decide)

/-- Claim C7 counterexample: a removal request against a component still in
`pendingStart` does not mark it `PendingRemoval` — the scheduler state is
completely unchanged — refuting the claim as stated. -/
theorem c7_pending_start_removal_noop :
    wPend.pendingStart = [1] ∧ hasA wPend.active 1 = false ∧
    Context.removeComponent wPend 1 = wPend ∧
    (Context.removeComponent wPend 1).pendingRemoval = [] := by decide

/-- Claim C8 (code bug): removing parent 1 does not remove child 2, which
was added through `parent.addComponent(child)`.  `Component.addComponent`
never inserts the child into the parent's `_components` set, so the cascade
loop in `removeComponentInternal` finds no children: the child is never
disposed and stays active — contradicting the spec and the repository's own
hierarchical-removal test. -/
theorem c8_child_survives_parent_removal :
    (getObj wC8post 1).children = [] ∧
    countEv wC8post.events (.disposeCall 1) = 1 ∧
    countEv wC8post.events (.disposeCall 2) = 0 ∧
    hasA wC8post.active 2 = true := by decide

/-- Claim C9 witness: two active components with dispose hooks; `clear`
disposes both in registration order and empties the bookkeeping. -/
theorem c9_clear_drains_active_eagerly_witness :
    wTwoActive.pendingStart = [] ∧ wTwoActive.pendingRemoval = [] ∧
    (wTwoActive.active.map Prod.fst).Nodup ∧ childrenEmpty wTwoActive ∧
    Context.clear specSyncDispose wTwoActive =
      { wTwoActive with
        active := [],
        pendingRemoval := [],
        callbacks := [],
        events := wTwoActive.events ++
          disposeTrace specSyncDispose (wTwoActive.active.map Prod.fst) } :=
  ⟨by decide, by decide, by decide, by decide,
    c9_clear_drains_active_eagerly specSyncDispose wTwoActive (by decide)
      (by decide) (by decide) (by decide)⟩

/-- Claim C9 counterexample: with component 1 still pending start, `clear`
does not remove it — the drain starts it instead, so after `clear` the
active set holds component 1, no dispose ever ran, and a start event was
emitted during teardown. -/
theorem c9_clear_keeps_pending_start_component :
    wPend.pendingStart = [1] ∧
    (Context.clear specSyncDispose wPend).active = [(1, ⟨true⟩)] ∧
    countEv (Context.clear specSyncDispose wPend).events (.disposeCall 1) = 0 ∧
    (Context.clear specSyncDispose wPend).events = [.startCall 1] := by decide

/-- Claim C10: a component object can be bound to a context at most once.
If its `_ctx` was ever assigned, any later registration — with any
scheduler state — throws synchronously before any registry mutation; in
particular, for a component no longer registered (removed), the thrown
error is exactly the ctx-setter's "Context has already been set", so
removed component objects can never be re-registered. -/
theorem c10_removed_component_cannot_rebind (w : World) (c : Nat)
    (h : (getObj w c).ctxSet = true) :
    (Context.addComponent w c).1 = w ∧
    (Context.addComponent w c).2.isSome = true ∧
    (hasA w.active c = false → c ∉ w.pendingStart →
      (Context.addComponent w c).2 = some "Context has already been set") := by
  unfold Context.addComponent
  by_cases h1 : (hasA w.active c || decide (c ∈ w.pendingStart)) = true
  · rw [if_pos h1]
    refine ⟨rfl, rfl, ?_⟩
    intro ha hm
    exfalso
    cases hor : hasA w.active c
    · rw [hor] at h1
      simp only [Bool.false_or] at h1
      exact hm (of_decide_eq_true h1)
    · rw [hor] at ha
      cases ha
  · rw [if_neg h1, if_pos h]
    exact ⟨rfl, rfl, fun _ _ => rfl⟩

/-- Claim C10 witness: component 1 was registered, started and removed; its
context is still bound, so re-registration fails with the ctx-setter error
and mutates nothing. -/
theorem c10_removed_component_cannot_rebind_witness :
    (getObj wRemoved 1).ctxSet = true ∧ hasA wRemoved.active 1 = false ∧
    1 ∉ wRemoved.pendingStart ∧
    (Context.addComponent wRemoved 1).1 = wRemoved ∧
    (Context.addComponent wRemoved 1).2 = some "Context has already been set" := by
  refine ⟨by decide, by decide, by decide, ?_, ?_⟩
  · exact (c10_removed_component_cannot_rebind wRemoved 1 (by decide)).1
  · exact (c10_removed_component_cannot_rebind wRemoved 1 (by decide)).2.2
      (by decide) (by decide)
